import Mathlib

/-!
Verification of the loopblog repository's Markdown post-processing and
post-repository layer, shallowly embedded in Lean.

Conventions of the embedding:
* JavaScript strings are Lean `String`s and are processed as `List Char`.
* The `Record<string, number>` counter object is an association list of own
  properties together with an explicit model of the `Object.prototype`
  chain, whose inherited `constructor` and `__proto__` members a plain-object
  read can hit.
* Backend rows live in a `List RawRow`; timestamps are `Nat`.
* The JS regular-expression passes of `Post.tsx` are embedded as
  single-character state machines that implement the global-replace
  semantics of each concrete pattern (leftmost match, continue after the
  replacement); each machine is documented next to the pattern it embeds.
-/

set_option maxRecDepth 1000000

namespace Loopblog

/-- JS `\s` whitespace class, restricted to the whitespace characters that can
occur in the bodies considered here (space, tab, LF, CR, FF, VT, NBSP). -/
def jsWs (c : Char) : Bool :=
  c = ' ' || c = '\t' || c = '\n' || c = '\r' ||
  c = '\x0c' || c = '\x0b' || c = ' '

/-- JS `String.prototype.trim`: drop leading and trailing whitespace. -/
def jsTrim (l : List Char) : List Char :=
  ((l.dropWhile jsWs).reverse.dropWhile jsWs).reverse

namespace PostPage

/-!  Embedding of `src/src/pages/Post.tsx` (reading time and TOC helpers). -/

/-- One step of `replace(/p+/g, r)` style run collapsing: every maximal run of
characters satisfying `p` becomes the single character `r`; other characters
are kept.  `inRun` records whether the previous character belonged to a run. -/
def replaceRuns (p : Char → Bool) (r : Char) : List Char → Bool → List Char
  | [], _ => []
  | c :: rest, inRun =>
    if p c then
      if inRun then replaceRuns p r rest true
      else r :: replaceRuns p r rest true
    else c :: replaceRuns p r rest false

/-- `slugify` of `Post.tsx`:
`input.toLowerCase().trim().replace(/[^\w\s-]/g, "").replace(/\s+/g, "-").replace(/[-]+/g, "-")`
(the last pattern is written `-+` in the source).
`\w` is `[A-Za-z0-9_]`; after `toLowerCase` no ASCII uppercase remains. -/
def slugify (input : String) : String :=
  let l := input.data.map Char.toLower
  let l := jsTrim l
  let l := l.filter (fun c => c.isAlphanum || c = '_' || jsWs c || c = '-')
  let l := replaceRuns jsWs '-' l false
  let l := replaceRuns (· = '-') '-' l false
  ⟨l⟩

/-- A value that a read of `counts[base]` on the slugger's plain object
(`const counts: Record<string, number> = {}`) can produce: a stored number,
a stored string (once a prototype hit has been concatenated with `1`), or
one of the two `Object.prototype` members visible through an all-lowercase
key — the inherited `constructor` function and, through the `__proto__`
accessor, `Object.prototype` itself. -/
inductive JsVal where
  | num (n : Nat) : JsVal
  | str (s : String) : JsVal
  | objectCtor : JsVal
  | objectProto : JsVal
deriving DecidableEq, Repr

/-- The text `Function.prototype.toString` produces for the built-in `Object`
constructor.  ECMA-262 leaves the exact NativeFunction text
implementation-defined; V8, JavaScriptCore and SpiderMonkey all render it as
below, and nothing proved about the bare/`-n` rule depends on the exact
text, since the id built from it is `"constructor-" ++ text ++ "1"` for any
rendering. -/
def objectCtorSrc : String :=
  "function Object() \x7b [native code] \x7d"

/-- JS `ToString` of a counter value, as the template literal
`` `${base}-${n}` `` applies it: numbers print in decimal, strings pass
through, the inherited function prints its source, and an object prints as
`[object Object]`. -/
def jsValStr : JsVal → String
  | .num n => toString n
  | .str s => s
  | .objectCtor => objectCtorSrc
  | .objectProto => "[object Object]"

/-- JS `v + 1`: numeric increment on numbers; on a string, a function, or an
object, `ToPrimitive` yields a string (the string itself, the function
source, `[object Object]`) and `+` concatenates `"1"`. -/
def jsAdd1 : JsVal → JsVal
  | .num n => .num (n + 1)
  | .str s => .str (s ++ "1")
  | .objectCtor => .str (objectCtorSrc ++ "1")
  | .objectProto => .str ("[object Object]" ++ "1")

/-- The prototype chain behind the plain counter object, restricted to the
keys a base slug can be.  A base slug contains only lowercase letters,
digits, `_` and `-`; of the standard `Object.prototype` property names only
`constructor` and `__proto__` consist solely of such characters — all others
(`toString`, `valueOf`, `hasOwnProperty`, `isPrototypeOf`,
`propertyIsEnumerable`, `toLocaleString`, the `__defineGetter__` family)
contain an uppercase letter and can never collide with a slug. -/
def protoLookup (k : String) : Option JsVal :=
  if k = "constructor" then some .objectCtor
  else if k = "__proto__" then some .objectProto
  else none

/-- The own properties of the duplicate counter of `createSlugger`,
embedded as an association list from key to stored value. -/
abbrev Counts := List (String × JsVal)

/-- Own-property lookup on the counter object. -/
def ownGet : Counts → String → Option JsVal
  | [], _ => none
  | p :: rest, k => if p.1 == k then some p.2 else ownGet rest k

/-- JS property read `counts[base]`: the own property when one exists,
otherwise the prototype chain. -/
def objGet (m : Counts) (k : String) : Option JsVal :=
  match ownGet m k with
  | some v => some v
  | none => protoLookup k

/-- Own-property write. -/
def setCount (m : Counts) (k : String) (v : JsVal) : Counts :=
  match m with
  | [] => [(k, v)]
  | p :: rest => if p.1 == k then (k, v) :: rest else p :: setCount rest k v

/-- JS property write `counts[base] = n`: for the key `__proto__` the
inherited accessor's setter intercepts the assignment and silently ignores a
non-object value, creating no own property; every other key gets an ordinary
own property (for `constructor` the inherited member is a data property, so
the write shadows it). -/
def objSet (m : Counts) (k : String) (v : JsVal) : Counts :=
  if k = "__proto__" then m else setCount m k v

/-- The base slug of a heading text: `slugify(text) || "section"`. -/
def sluggerBase (t : String) : String :=
  if slugify t = "" then "section" else slugify t

/-- One call of the closure returned by `createSlugger`:
`const n = (counts[base] ?? 0) + 1` — the property read goes through the
prototype chain, and an inherited hit is not nullish, so `?? 0` keeps it —
then `counts[base] = n` and `n === 1 ? base : `${base}-${n}``, where the
strict equality is false for every non-number `n`. -/
def sluggerStep (m : Counts) (t : String) : String × Counts :=
  let b := sluggerBase t
  let n := jsAdd1 ((objGet m b).getD (.num 0))
  (if n = .num 1 then b else b ++ "-" ++ jsValStr n, objSet m b n)

/-- Running a fresh slugger over a list of heading texts, in order. -/
def runSluggerAux (m : Counts) : List String → List String
  | [] => []
  | t :: ts => (sluggerStep m t).1 :: runSluggerAux (sluggerStep m t).2 ts

/-- Ids assigned by `createSlugger()` to a sequence of heading texts. -/
def runSlugger (ts : List String) : List String :=
  runSluggerAux [] ts

/-- State of the link-replacing scan: outside any candidate, buffering the
link text after `[`, just past `]` expecting `(`, or buffering the URL.
Buffers are kept in reverse. -/
inductive LinkState where
  | norm : LinkState
  | text (buf : List Char) : LinkState
  | afterText (buf : List Char) : LinkState
  | url (tbuf ubuf : List Char) : LinkState

/-- `text.replace(/\[([^\]]+)\]\([^)]+\)/g, "$1")`: Markdown links become their
link text.  Single-character state machine for the global replace: on `[`
start buffering the (nonempty, `]`-free) link text; after `]` an immediate `(`
must open a nonempty, `)`-free URL closed by `)`; on success the buffered link
text is emitted; any failure re-emits the buffered characters verbatim.
Positions inside a failed candidate cannot start a match of their own, because
a `[` buffered as link text reaches the same first `]` and then fails at the
same place the enclosing candidate failed, so restarting after the failure
point implements the regex's leftmost-match scan. -/
def replaceLinksAux : LinkState → List Char → List Char
  | .norm, [] => []
  | .text buf, [] => '[' :: buf.reverse
  | .afterText buf, [] => '[' :: buf.reverse ++ [']']
  | .url tbuf ubuf, [] => '[' :: tbuf.reverse ++ ']' :: '(' :: ubuf.reverse
  | .norm, c :: rest =>
    if c = '[' then replaceLinksAux (.text []) rest
    else c :: replaceLinksAux .norm rest
  | .text buf, c :: rest =>
    if c = ']' then
      if buf.isEmpty then '[' :: ']' :: replaceLinksAux .norm rest
      else replaceLinksAux (.afterText buf) rest
    else replaceLinksAux (.text (c :: buf)) rest
  | .afterText buf, c :: rest =>
    if c = '(' then replaceLinksAux (.url buf []) rest
    else if c = '[' then '[' :: buf.reverse ++ ']' :: replaceLinksAux (.text []) rest
    else '[' :: buf.reverse ++ ']' :: c :: replaceLinksAux .norm rest
  | .url tbuf ubuf, c :: rest =>
    if c = ')' then
      if ubuf.isEmpty then
        '[' :: tbuf.reverse ++ ']' :: '(' :: ')' :: replaceLinksAux .norm rest
      else tbuf.reverse ++ replaceLinksAux .norm rest
    else replaceLinksAux (.url tbuf (c :: ubuf)) rest

/-- The link-to-link-text replacement, started in the outside state. -/
def replaceLinks (l : List Char) : List Char :=
  replaceLinksAux .norm l

/-- A table-of-contents entry of `extractToc`. -/
structure TocItem where
  level : Nat
  text : String
  id : String
deriving Repr, DecidableEq

/-- The per-line heading match of `extractToc`:
`/^(#{2,3})\s+(.+?)\s*$/` followed by
`m[2].replace(links, "$1").replace(/[*_`]/g, "").trim()` and the
`if (!text) continue` guard.  With a greedy `#` run of length 2 or 3 followed
by at least one whitespace character, `m[2]` is the rest of the line with
leading and trailing whitespace stripped (in the degenerate all-whitespace
case the regex captures a single space, which the final `trim` also sends to
the empty string, so the line is skipped either way). -/
def headingOf (line : String) : Option (Nat × String) :=
  let cs := line.data
  let hashes := cs.takeWhile (· = '#')
  let rest := cs.dropWhile (· = '#')
  if hashes.length = 2 ∨ hashes.length = 3 then
    match rest with
    | [] => none
    | c :: _ =>
      if jsWs c then
        let raw := jsTrim rest
        let text := jsTrim ((replaceLinks raw).filter
          (fun ch => !(ch = '*' || ch = '_' || ch = '`')))
        if text.isEmpty then none else some (hashes.length, ⟨text⟩)
      else none
  else none

/-- JS `str.split("\n")`: the pieces between newline characters (the
accumulator holds the current piece in reverse). -/
def splitLinesAux (acc : List Char) : List Char → List (List Char)
  | [] => [acc.reverse]
  | c :: rest =>
    if c = '\n' then acc.reverse :: splitLinesAux [] rest
    else splitLinesAux (c :: acc) rest

/-- JS `str.split("\n")` on the character list of a body. -/
def splitLines (l : List Char) : List (List Char) :=
  splitLinesAux [] l

/-- The loop body of `extractToc`, threading the slugger's counter state
through the lines in top-to-bottom order. -/
def tocAux (m : Counts) : List (List Char) → List TocItem
  | [] => []
  | line :: rest =>
    match headingOf ⟨line⟩ with
    | none => tocAux m rest
    | some (level, text) =>
      ⟨level, text, (sluggerStep m text).1⟩ :: tocAux (sluggerStep m text).2 rest

/-- `extractToc` of `Post.tsx`: split the body on `"\n"`, collect the level-2
and level-3 ATX heading lines, and assign each an id with a fresh slugger. -/
def extractToc (md : String) : List TocItem :=
  tocAux [] (splitLines md.data)

/-- The ids assigned by `markdownComponents` of `Post.tsx`: the `h2`/`h3`
components call `slug(getNodeText(children))` with one shared fresh slugger,
once per rendered level-2/3 heading in render order, so over the sequence of
rendered heading texts the assigned ids are a slugger run. -/
def rendererIds (headingTexts : List String) : List String :=
  runSlugger headingTexts

/-- Whether a line opens or closes a backtick code fence (starts with "```"),
for the restricted bodies fed to `renderedHeadingTexts`. -/
def isFenceLine (line : List Char) : Bool :=
  match line with
  | '`' :: '`' :: '`' :: _ => true
  | _ => false

/-- A plain-text ATX level-2/3 heading line: 2 or 3 `#`s, whitespace, text. -/
def plainAtxHeading (line : List Char) : Option String :=
  let hashes := line.takeWhile (· = '#')
  let rest := line.dropWhile (· = '#')
  if hashes.length = 2 ∨ hashes.length = 3 then
    match rest with
    | [] => none
    | c :: _ => if jsWs c then some ⟨jsTrim rest⟩ else none
  else none

/-- The fence-tracking scan behind `renderedHeadingTexts`. -/
def renderedHeadingsAux (inFence : Bool) : List (List Char) → List String
  | [] => []
  | line :: rest =>
    if isFenceLine line then renderedHeadingsAux (!inFence) rest
    else if inFence then renderedHeadingsAux inFence rest
    else
      match plainAtxHeading line with
      | some t => t :: renderedHeadingsAux inFence rest
      | none => renderedHeadingsAux inFence rest

/-- Model of the renderer's heading sequence (`ReactMarkdown` with CommonMark
semantics, external to the repository): for bodies made of plain-text ATX
`##`/`###` heading lines, plain paragraph lines, and ``` code fences, the
rendered level-2/3 headings are exactly the heading lines outside fenced code
blocks, in document order, and `getNodeText` yields their trimmed text.  Lines
inside a fenced code block are code content and render no heading. -/
def renderedHeadingTexts (md : String) : List String :=
  renderedHeadingsAux false (splitLines md.data)

/-- The body used to separate the renderer's anchors from the extractor's:
its first `##` line sits inside a fenced code block, which the renderer
treats as code but the line-based `extractToc` scan still matches. -/
def fencedHeadingBody : String :=
  "```\n## Secret\n```\n## Intro\n## Intro"

/-- The id the slugger produces for the `n`-th occurrence of base slug `b`:
the bare base for the first occurrence, `b-n` afterwards. -/
def mkSlugId (b : String) (n : Nat) : String :=
  if n = 1 then b else b ++ "-" ++ toString n

/-- Functional description of a slugger run: `f` counts, for every base slug,
how many earlier headings used it. -/
def specRun (f : String → Nat) : List String → List String
  | [] => []
  | t :: ts =>
    mkSlugId (sluggerBase t) (f (sluggerBase t) + 1) ::
      specRun (fun x => if x = sluggerBase t then f (sluggerBase t) + 1 else f x) ts

/-- `s.replace(/```[\s\S]*?```/g, " ")` — the fenced-code pass of
`stripMarkdown`.  A match is the leftmost triple backtick together with the
earliest triple backtick completing it; `pending` buffers the characters
consumed since an opening triple (in reverse) so an unclosed opening is
re-emitted verbatim at the end, and `run` counts the backticks of the run
currently being read. -/
def stripFencedAux : Option (List Char) → Nat → List Char → List Char
  | none, run, [] => List.replicate run '`'
  | some buf, run, [] =>
    '`' :: '`' :: '`' :: buf.reverse ++ List.replicate run '`'
  | none, run, c :: rest =>
    if c = '`' then
      if run = 2 then stripFencedAux (some []) 0 rest
      else stripFencedAux none (run + 1) rest
    else List.replicate run '`' ++ c :: stripFencedAux none 0 rest
  | some buf, run, c :: rest =>
    if c = '`' then
      if run = 2 then ' ' :: stripFencedAux none 0 rest
      else stripFencedAux (some buf) (run + 1) rest
    else stripFencedAux (some (c :: List.replicate run '`' ++ buf)) 0 rest

/-- The fenced-code-block removal pass. -/
def stripFenced (l : List Char) : List Char :=
  stripFencedAux none 0 l

/-- `s.replace(/`[^`]*`/g, " ")` — the inline-code pass: pair each backtick
with the next one (possibly empty content) and replace the pair by a space;
an unmatched final backtick is re-emitted verbatim. -/
def stripInlineCodeAux : Option (List Char) → List Char → List Char
  | none, [] => []
  | some buf, [] => '`' :: buf.reverse
  | none, c :: rest =>
    if c = '`' then stripInlineCodeAux (some []) rest
    else c :: stripInlineCodeAux none rest
  | some buf, c :: rest =>
    if c = '`' then ' ' :: stripInlineCodeAux none rest
    else stripInlineCodeAux (some (c :: buf)) rest

/-- The inline-code removal pass. -/
def stripInlineCode (l : List Char) : List Char :=
  stripInlineCodeAux none l

/-- State of the image-removing scan, analogous to `LinkState` but triggered
by `!` and with a possibly empty alt text. -/
inductive ImgState where
  | norm : ImgState
  | bang : ImgState
  | text (buf : List Char) : ImgState
  | afterText (buf : List Char) : ImgState
  | url (tbuf ubuf : List Char) : ImgState

/-- `s.replace(/!\[[^\]]*\]\([^)]+\)/g, " ")` — the image pass: an image tag
`![alt](url)` (alt may be empty, url must be nonempty) becomes a space; on
failure the buffered candidate is re-emitted verbatim (as with links, no
match can start inside a failed candidate, except for a fresh `!` or `![`,
which the machine hands back to the `bang`/`text` states). -/
def stripImagesAux : ImgState → List Char → List Char
  | .norm, [] => []
  | .bang, [] => ['!']
  | .text buf, [] => '!' :: '[' :: buf.reverse
  | .afterText buf, [] => '!' :: '[' :: buf.reverse ++ [']']
  | .url tbuf ubuf, [] => '!' :: '[' :: tbuf.reverse ++ ']' :: '(' :: ubuf.reverse
  | .norm, c :: rest =>
    if c = '!' then stripImagesAux .bang rest
    else c :: stripImagesAux .norm rest
  | .bang, c :: rest =>
    if c = '[' then stripImagesAux (.text []) rest
    else if c = '!' then '!' :: stripImagesAux .bang rest
    else '!' :: c :: stripImagesAux .norm rest
  | .text buf, c :: rest =>
    if c = ']' then stripImagesAux (.afterText buf) rest
    else stripImagesAux (.text (c :: buf)) rest
  | .afterText buf, c :: rest =>
    if c = '(' then stripImagesAux (.url buf []) rest
    else if c = '!' then '!' :: '[' :: buf.reverse ++ ']' :: stripImagesAux .bang rest
    else '!' :: '[' :: buf.reverse ++ ']' :: c :: stripImagesAux .norm rest
  | .url tbuf ubuf, c :: rest =>
    if c = ')' then
      if ubuf.isEmpty then
        '!' :: '[' :: tbuf.reverse ++ ']' :: '(' :: ')' :: stripImagesAux .norm rest
      else ' ' :: stripImagesAux .norm rest
    else stripImagesAux (.url tbuf (c :: ubuf)) rest

/-- The image removal pass. -/
def stripImages (l : List Char) : List Char :=
  stripImagesAux .norm l

/-- State of the heading/bullet marker scans: at a line start, inside a run
of leading `#`s, past any possible match on this line, or consuming the
whitespace run of a match (remembering whether the last consumed whitespace
character was a newline, which decides whether the next character sits at a
line start of the original string). -/
inductive MarkState where
  | start : MarkState
  | hashes (k : Nat) : MarkState
  | afterBullet (b : Char) : MarkState
  | mid : MarkState
  | skipWs (lastNl : Bool) : MarkState

/-- `s.replace(/^#{1,6}\s+/gm, "")` — the heading-marker pass.  With the `m`
flag, `^` holds at position 0 and right after every `\n` of the string being
scanned; a match is a run of 1–6 `#`s there followed by a (possibly
newline-crossing) whitespace run, all of which is deleted.  Seven or more
`#`s match nowhere on that line. -/
def stripHeadingMarksAux : MarkState → List Char → List Char
  | .start, [] => []
  | .hashes k, [] => List.replicate k '#'
  | .afterBullet b, [] => [b]
  | .mid, [] => []
  | .skipWs _, [] => []
  | .start, c :: rest =>
    if c = '#' then stripHeadingMarksAux (.hashes 1) rest
    else if c = '\n' then c :: stripHeadingMarksAux .start rest
    else c :: stripHeadingMarksAux .mid rest
  | .hashes k, c :: rest =>
    if c = '#' then
      if k = 6 then List.replicate 7 '#' ++ stripHeadingMarksAux .mid rest
      else stripHeadingMarksAux (.hashes (k + 1)) rest
    else if jsWs c then stripHeadingMarksAux (.skipWs (c = '\n')) rest
    else List.replicate k '#' ++ c :: stripHeadingMarksAux .mid rest
  | .afterBullet b, c :: rest => b :: c :: stripHeadingMarksAux .mid rest
  | .mid, c :: rest =>
    c :: stripHeadingMarksAux (if c = '\n' then .start else .mid) rest
  | .skipWs lastNl, c :: rest =>
    if jsWs c then stripHeadingMarksAux (.skipWs (c = '\n')) rest
    else if lastNl then
      if c = '#' then stripHeadingMarksAux (.hashes 1) rest
      else c :: stripHeadingMarksAux .mid rest
    else c :: stripHeadingMarksAux .mid rest

/-- The heading-marker removal pass. -/
def stripHeadingMarks (l : List Char) : List Char :=
  stripHeadingMarksAux .start l

/-- Whether a character is one of the bullet markers `-`, `*`, `+`. -/
def isBullet (c : Char) : Bool :=
  c = '-' || c = '*' || c = '+'

/-- `s.replace(/^[-*+]\s+/gm, "")` — the bullet-marker pass: a bullet
character at a line start followed by a whitespace run is deleted, with the
same `m`-flag line-start rule as the heading pass. -/
def stripBulletMarksAux : MarkState → List Char → List Char
  | .start, [] => []
  | .hashes k, [] => List.replicate k '#'
  | .afterBullet b, [] => [b]
  | .mid, [] => []
  | .skipWs _, [] => []
  | .start, c :: rest =>
    if isBullet c then stripBulletMarksAux (.afterBullet c) rest
    else if c = '\n' then c :: stripBulletMarksAux .start rest
    else c :: stripBulletMarksAux .mid rest
  | .hashes _, c :: rest => c :: stripBulletMarksAux .mid rest
  | .afterBullet b, c :: rest =>
    if jsWs c then stripBulletMarksAux (.skipWs (c = '\n')) rest
    else b :: c :: stripBulletMarksAux (if c = '\n' then .start else .mid) rest
  | .mid, c :: rest =>
    c :: stripBulletMarksAux (if c = '\n' then .start else .mid) rest
  | .skipWs lastNl, c :: rest =>
    if jsWs c then stripBulletMarksAux (.skipWs (c = '\n')) rest
    else if lastNl then
      if isBullet c then stripBulletMarksAux (.afterBullet c) rest
      else c :: stripBulletMarksAux .mid rest
    else c :: stripBulletMarksAux .mid rest

/-- The bullet-marker removal pass. -/
def stripBulletMarks (l : List Char) : List Char :=
  stripBulletMarksAux .start l

/-- `stripMarkdown` of `Post.tsx`: the seven replacement passes in source
order — fenced code blocks, inline code, images, links (kept as link text),
heading markers, bullet markers, and finally whitespace collapsing plus
trim. -/
def stripMarkdown (md : String) : String :=
  let s := stripFenced md.data
  let s := stripInlineCode s
  let s := stripImages s
  let s := replaceLinks s
  let s := stripHeadingMarks s
  let s := stripBulletMarks s
  ⟨jsTrim (replaceRuns jsWs ' ' s false)⟩

/-- The word counter behind `countWords`: the number of maximal runs of
non-whitespace characters, which is what
`text.trim().split(/\s+/).filter(Boolean).length` computes (the
`if (!text) return 0` guard agrees with it on the empty string). -/
def countWordsAux (inWord : Bool) : List Char → Nat
  | [] => 0
  | c :: rest =>
    if jsWs c then countWordsAux false rest
    else (if inWord then 0 else 1) + countWordsAux true rest

/-- `countWords` of `Post.tsx`. -/
def countWords (text : String) : Nat :=
  countWordsAux false text.data

/-- The reading-time label of `Post.tsx`:
`Math.max(1, Math.round(words / 200))` followed by `" min read"`.
For natural `words`, JS `Math.round(words / 200)` (round half towards
positive infinity) equals `(words + 100) / 200` in natural division: the
only values where rounding could be ambiguous are exact halves
`words = 200k + 100`, where both round up to `k + 1`, and `words / 200` is
otherwise farther from a half than any floating-point error. -/
def readingTimeLabel (md : String) : String :=
  let words := countWords (stripMarkdown md)
  let minutes := max 1 ((words + 100) / 200)
  toString minutes ++ " min read"

/-- A body with one fenced code block, one image tag, and exactly 400 prose
words. -/
def body400 : String :=
  "```\nconst x = 1;\n```\n![alt](photo.png)\n" ++
    String.join (List.replicate 400 "go ")

/-- A body with exactly 50 prose words. -/
def body50 : String :=
  String.join (List.replicate 50 "go ")

end PostPage

namespace Repo

/-!  Embedding of the Supabase-backed `lib/posts` module
(`src/unnamed/part_003`, second document): row normalization, the public
list/detail queries, and `addPost`. -/

/-- The post status enum. -/
inductive PostStatus where
  | draft : PostStatus
  | published : PostStatus
deriving DecidableEq, Repr

/-- The string stored in the backend's `status` column. -/
def PostStatus.toStr : PostStatus → String
  | .draft => "draft"
  | .published => "published"

/-- The runtime value of a backend row's `image_paths` field, which older
schema versions may lack: a string array, SQL `NULL`/JS `undefined` for an
absent field, or any non-array value. -/
inductive ImgField where
  | absent : ImgField
  | null : ImgField
  | notArray : ImgField
  | arr (xs : List String) : ImgField
deriving DecidableEq, Repr

/-- A backend `posts` row as returned by `select("*")`.  Timestamps are
natural numbers; `body_md` and `body` are the two column names the
normalizer reconciles. -/
structure RawRow where
  id : String
  author_id : String
  title : String
  slug : Option String
  excerpt : Option String
  body_md : Option String
  body : Option String
  cover_path : Option String
  image_paths : ImgField
  status : String
  published_at : Option Nat
  created_at : Nat
  updated_at : Nat
deriving DecidableEq, Repr

/-- The application-side post shape (`PostRow` of `lib/posts`): `image_paths`
is always a list and `body_md` is the reconciled Markdown body. -/
structure PostRow where
  id : String
  title : String
  slug : Option String
  excerpt : Option String
  body_md : Option String
  cover_path : Option String
  image_paths : List String
  status : String
  published_at : Option Nat
  created_at : Nat
  updated_at : Nat
deriving DecidableEq, Repr

/-- `normalizeRow` of `lib/posts`: spread the row, set
`body_md = r.body_md ?? r.body ?? null` and
`image_paths = Array.isArray(r.image_paths) ? r.image_paths : []`. -/
def normalizeRow (r : RawRow) : PostRow where
  id := r.id
  title := r.title
  slug := r.slug
  excerpt := r.excerpt
  body_md := r.body_md <|> r.body
  cover_path := r.cover_path
  image_paths := match r.image_paths with | .arr xs => xs | _ => []
  status := r.status
  published_at := r.published_at
  created_at := r.created_at
  updated_at := r.updated_at

/-- Descending comparison on optional timestamps with `NULL` greatest:
`ORDER BY published_at DESC` in Postgres places NULLs first. -/
def nullsFirstGe (a b : Option Nat) : Bool :=
  match a, b with
  | none, _ => true
  | some _, none => false
  | some x, some y => y ≤ x

/-- The row order produced by
`.order("published_at", { ascending: false })`: no `nullsFirst` option is
passed, so PostgREST emits `ORDER BY published_at DESC` and Postgres sorts
descending with NULLs first. -/
def pubDescRel (a b : RawRow) : Prop :=
  nullsFirstGe a.published_at b.published_at = true

instance : DecidableRel pubDescRel :=
  fun a b => inferInstanceAs (Decidable (_ = true))

instance : IsTotal RawRow pubDescRel where
  total a b := by
    unfold pubDescRel nullsFirstGe
    cases a.published_at <;> cases b.published_at <;> simp <;> omega

instance : IsTrans RawRow pubDescRel where
  trans a b c := by
    unfold pubDescRel nullsFirstGe
    cases a.published_at <;> cases b.published_at <;> cases c.published_at <;>
      simp <;> omega

/-- `loadPosts` of `lib/posts`:
`from("posts").select("*").eq("status", "published").order("published_at", { ascending: false })`
followed by `rows.map(normalizeRow)`.  The filter and ordering are executed
by the backend; SQL leaves the relative order of equal keys unspecified, and
the model fixes it with a stable insertion sort, which is one valid backend
order. -/
def loadPosts (db : List RawRow) : List PostRow :=
  ((db.filter (fun r => r.status == "published")).insertionSort pubDescRel).map
    normalizeRow

/-- `getPost` of `lib/posts`: `.eq("id", id).maybeSingle()` — the first row
with this id or `null` — then `normalizeRow`. -/
def getPost (db : List RawRow) (id : String) : Option PostRow :=
  (db.find? (fun r => r.id == id)).map normalizeRow

/-- The `addPost` input shape; optional fields are `undefined` when absent
(`excerpt`/`cover_path` may also be `null`, which `?? null` collapses with
`undefined`). -/
structure CreateInput where
  title : String
  slug : String
  excerpt : Option String
  body_md : String
  cover_path : Option String
  image_paths : Option (List String)
  status : Option PostStatus

/-- How `addPost` can fail before the insert: `supabase.auth.getUser()`
returned an error, or there is no logged-in user (the
`"Not logged in. Go to #/admin and log in first."` throw). -/
inductive CreateError where
  | authError (msg : String) : CreateError
  | unauthenticated : CreateError
deriving DecidableEq, Repr

/-- Row metadata the backend assigns on insert (`id`, `created_at`,
`updated_at`). -/
structure InsertMeta where
  id : String
  created_at : Nat
  updated_at : Nat

/-- `addPost` of `lib/posts`.  `auth` is the result of
`supabase.auth.getUser()` (`.error` when `userErr` is thrown, `.ok none`
when there is no user); `now` is `new Date().toISOString()` at call time.
The payload writes the Markdown body to the legacy `body` column, defaults
`status` to draft, fills `image_paths` with `[]` unless an array was given,
and sets `published_at` to the call time exactly when the stored status is
published (the input carries no `published_at`).  On success the new row is
inserted and the `select("*").single()` result is normalized; the backend's
unique-slug constraint and transport failures of the insert are not
modelled. -/
def addPost (auth : Except String (Option String)) (db : List RawRow)
    (input : CreateInput) (now : Nat) (meta : InsertMeta) :
    Except CreateError (List RawRow × PostRow) :=
  match auth with
  | .error e => .error (.authError e)
  | .ok none => .error .unauthenticated
  | .ok (some author_id) =>
    let status := input.status.getD .draft
    let payload : RawRow :=
      { id := meta.id
        author_id := author_id
        title := input.title
        slug := some input.slug
        excerpt := input.excerpt
        body_md := none
        body := some input.body_md
        cover_path := input.cover_path
        image_paths := .arr (input.image_paths.getD [])
        status := status.toStr
        published_at := if status = .published then some now else none
        created_at := meta.created_at
        updated_at := meta.updated_at }
    .ok (db ++ [payload], normalizeRow payload)

/-- The rows the backend holds after an `addPost` call: the caller's state is
untouched when `addPost` throws, because the throw happens before the insert
is issued. -/
def dbAfterCreate (auth : Except String (Option String)) (db : List RawRow)
    (input : CreateInput) (now : Nat) (meta : InsertMeta) : List RawRow :=
  match addPost auth db input now meta with
  | .ok (db2, _) => db2
  | .error _ => db

/-- A published row in the legacy backend shape: no `body_md` column and a
NULL `image_paths`. -/
def rowLegacy : RawRow where
  id := "p1"
  author_id := "a1"
  title := "T"
  slug := some "t"
  excerpt := none
  body_md := none
  body := some "legacy body"
  cover_path := none
  image_paths := .null
  status := "published"
  published_at := some 5
  created_at := 1
  updated_at := 1

/-- A published row with `published_at = 5` but the newer `created_at = 10`. -/
def rowDated : RawRow where
  id := "b"
  author_id := "a1"
  title := "B"
  slug := some "b"
  excerpt := none
  body_md := some "bb"
  body := none
  cover_path := none
  image_paths := .arr []
  status := "published"
  published_at := some 5
  created_at := 10
  updated_at := 10

/-- A published row with no `published_at` and the older `created_at = 1`. -/
def rowNullDate : RawRow where
  id := "a"
  author_id := "a1"
  title := "A"
  slug := some "a"
  excerpt := none
  body_md := some "aa"
  body := none
  cover_path := none
  image_paths := .arr []
  status := "published"
  published_at := none
  created_at := 1
  updated_at := 1

/-- A create input with `status` omitted. -/
def draftInput : CreateInput where
  title := "T"
  slug := "t"
  excerpt := none
  body_md := "B"
  cover_path := none
  image_paths := none
  status := none

/-- A create input with `status = published`. -/
def publishInput : CreateInput where
  title := "T"
  slug := "t"
  excerpt := none
  body_md := "B"
  cover_path := none
  image_paths := none
  status := some .published

/-- Backend-assigned metadata for the concrete create calls. -/
def exMeta : InsertMeta where
  id := "new1"
  created_at := 7
  updated_at := 7

end Repo

namespace EditPage

/-!  Embedding of `src/src/pages/EditPost.tsx`: the `save` update and the
`deletePost` handler. -/

/-- The form state of the edit page at the time `save` runs.
`desiredPublishedAt` is `fromDatetimeLocal(publishedAtLocal)` — `none` when
the datetime field is empty or unparsable. -/
structure EditForm where
  title : String
  excerpt : String
  bodyMd : String
  status : String
  desiredPublishedAt : Option Nat
  coverPath : Option String
  imagePaths : List String

/-- The `update` object `save` sends: an outer `none` means the column is
omitted from the partial update (only `published_at` can be omitted); an
inner `none` is SQL `NULL`. -/
structure RowUpdate where
  title : Option String
  excerpt : Option (Option String)
  body_md : Option String
  status : Option String
  published_at : Option (Option Nat)
  cover_path : Option (Option String)
  image_paths : Option (List String)

/-- The partial update built by `save`: `title.trim()`,
`excerpt.trim() || null`, `body_md`, `status`, `cover_path` and
`image_paths` are always included (`coverPath`/`imagePaths` are never
`undefined` in the component state, so their `!== undefined` guards always
pass); `published_at` is the typed datetime if any, else the current time
when switching to published with no existing `published_at`, else omitted
(`undefined`, dropped from the update object).  The source's
`status: status || null` can store NULL only for an empty status string,
which the two-option select cannot produce, so the model stores the status
as given. -/
def buildUpdate (form : EditForm) (existingPublishedAt : Option Nat)
    (now : Nat) : RowUpdate where
  title := some ⟨jsTrim form.title.data⟩
  excerpt := some (if jsTrim form.excerpt.data = [] then none
                   else some ⟨jsTrim form.excerpt.data⟩)
  body_md := some form.bodyMd
  status := some form.status
  published_at :=
    match form.desiredPublishedAt with
    | some t => some (some t)
    | none =>
      if form.status = "published" && existingPublishedAt.isNone then
        some (some now)
      else none
  cover_path := some form.coverPath
  image_paths := some form.imagePaths

/-- The backend's row UPDATE semantics: columns present in the partial take
its value, all other columns keep their stored value. -/
def applyUpdate (r : Repo.RawRow) (u : RowUpdate) : Repo.RawRow where
  id := r.id
  author_id := r.author_id
  title := u.title.getD r.title
  slug := r.slug
  excerpt := match u.excerpt with | some v => v | none => r.excerpt
  body_md := match u.body_md with | some v => some v | none => r.body_md
  body := r.body
  cover_path := match u.cover_path with | some v => v | none => r.cover_path
  image_paths :=
    match u.image_paths with | some xs => .arr xs | none => r.image_paths
  status := u.status.getD r.status
  published_at :=
    match u.published_at with | some v => v | none => r.published_at
  created_at := r.created_at
  updated_at := r.updated_at

/-- `save` of `EditPost.tsx` on row `row`: build the partial from the form
and the loaded row's `published_at`, and issue the UPDATE; returns the
partial sent and the updated row. -/
def save (form : EditForm) (row : Repo.RawRow) (now : Nat) :
    RowUpdate × Repo.RawRow :=
  let u := buildUpdate form row.published_at now
  (u, applyUpdate row u)

/-- `deletePost` of `EditPost.tsx`: a single
`from("posts").delete().eq("id", id)`.  No storage call occurs in this
handler (`removeFromBucket` is invoked only by the cover-replace and
image-remove flows), so the stored-object list is returned unchanged.  The
confirm dialog and backend transport errors are outside the model. -/
def deletePost (db : List Repo.RawRow) (storage : List String) (id : String) :
    List Repo.RawRow × List String :=
  (db.filter (fun r => !(r.id == id)), storage)

/-- An edit form that switches to published without typing a datetime. -/
def publishForm : EditForm where
  title := "T"
  excerpt := ""
  bodyMd := "B"
  status := "published"
  desiredPublishedAt := none
  coverPath := none
  imagePaths := []

/-- A row that was already published at time 42. -/
def rowPublished42 : Repo.RawRow where
  id := "p2"
  author_id := "a1"
  title := "T"
  slug := some "t2"
  excerpt := none
  body_md := some "B"
  body := none
  cover_path := none
  image_paths := .arr []
  status := "published"
  published_at := some 42
  created_at := 40
  updated_at := 41

/-- A row owning one stored image. -/
def rowWithImage : Repo.RawRow where
  id := "p"
  author_id := "a1"
  title := "P"
  slug := some "p"
  excerpt := none
  body_md := some "B"
  body := none
  cover_path := none
  image_paths := .arr ["posts/p/images/i1"]
  status := "published"
  published_at := some 3
  created_at := 2
  updated_at := 2

end EditPage

namespace WritePage

/-!  Embedding of the Supabase `Write` page (`src/unnamed/part_012`):
`slugify` and the slug actually sent by `onSave`. -/

/-- The net effect of `replace(/(^-|-$)+/g, "")`: the `+`-loop can extend a
match only at position 0 (via `^-`) or at the final character (via `-$`), so
the global replace deletes one leading hyphen and one trailing hyphen if
present (on the string `"--"` a single match covers both). -/
def stripEdgeHyphens (l : List Char) : List Char :=
  let l1 := if l.head? = some '-' then l.tail else l
  if l1.getLast? = some '-' then l1.dropLast else l1

/-- `slugify` of the Write page:
`input.toLowerCase().trim().replace(/['"]/g, "").replace(/[^a-z0-9]+/g, "-").replace(/(^-|-$)+/g, "").slice(0, 80)`.
Every maximal run of characters outside `[a-z0-9]` becomes one hyphen, so
doubled hyphens never reach the edge-stripping pass. -/
def slugify (input : String) : String :=
  let l := input.data.map Char.toLower
  let l := jsTrim l
  let l := l.filter (fun c => !(c = '\'' || c = '"'))
  let l := PostPage.replaceRuns (fun c => !(c.isLower || c.isDigit)) '-' l false
  let l := stripEdgeHyphens l
  ⟨l.take 80⟩

/-- The character for a decimal digit. -/
def decimalDigit (d : Nat) : Char :=
  Char.ofNat (48 + d % 10)

/-- Fueled decimal rendering (the fuel only bounds the recursion; `n + 1`
steps always suffice since the argument shrinks by a factor of ten). -/
def decimalAux : Nat → Nat → List Char
  | 0, _ => []
  | fuel + 1, n =>
    if n < 10 then [decimalDigit n]
    else decimalAux fuel (n / 10) ++ [decimalDigit (n % 10)]

/-- The decimal rendering of a timestamp, as interpolated by
`` `post-${Date.now()}` ``. -/
def decimalString (n : Nat) : String :=
  ⟨decimalAux (n + 1) n⟩

/-- The slug `onSave` sends to `addPost`:
`slugify(cleanTitle) || `post-${Date.now()}`` with
`cleanTitle = title.trim()`. -/
def onSaveSlug (title : String) (nowMs : Nat) : String :=
  let s := slugify ⟨jsTrim title.data⟩
  if s = "" then "post-" ++ decimalString nowMs else s

end WritePage

end Loopblog

open Loopblog Loopblog.PostPage Loopblog.Repo Loopblog.EditPage Loopblog.WritePage

example : PostPage.slugify "Hello World" = "hello-world" := by decide

example : (extractToc "## Intro\n## Intro\n## Setup").map (·.id) =
    ["intro", "intro-2", "setup"] := by decide

example : (extractToc "intro\n## A [link](url) *here*\n### A\n#### deep").map (·.id) =
    ["a-link-here", "a"] := by decide

theorem ownGet_setCount (m : Counts) (k : String) (v : JsVal) (x : String) :
    ownGet (setCount m k v) x = if x = k then some v else ownGet m x := by
  induction m with
  | nil =>
    by_cases h : x = k
    · subst h; simp [setCount, ownGet]
    · have hk : (k == x) = false := beq_eq_false_iff_ne.mpr (Ne.symm h)
      simp [setCount, ownGet, hk, h]
  | cons p rest ih =>
    by_cases hp : p.1 = k
    · have hp1 : (p.1 == k) = true := beq_iff_eq.mpr hp
      by_cases hx : x = k
      · subst hx
        simp [setCount, hp1, ownGet]
      · have hkx : (k == x) = false := beq_eq_false_iff_ne.mpr (Ne.symm hx)
        have hpx : (p.1 == x) = false := by
          rw [hp]; exact hkx
        simp [setCount, hp1, ownGet, hkx, hpx, hx]
    · have hp1 : (p.1 == k) = false := beq_eq_false_iff_ne.mpr hp
      by_cases hpx : p.1 = x
      · have hpx1 : (p.1 == x) = true := beq_iff_eq.mpr hpx
        have hxk : x ≠ k := by rw [← hpx]; exact hp
        simp [setCount, hp1, ownGet, hpx1, hxk]
      · have hpx1 : (p.1 == x) = false := beq_eq_false_iff_ne.mpr hpx
        simp [setCount, hp1, ownGet, hpx1, ih]

theorem objGet_setCount (m : Counts) (k : String) (v : JsVal) (x : String) :
    objGet (setCount m k v) x = if x = k then some v else objGet m x := by
  by_cases h : x = k
  · simp [objGet, ownGet_setCount, h]
  · simp [objGet, ownGet_setCount, h]

theorem runSluggerAux_eq_specRun_of_clean (ts : List String) :
    ∀ (m : Counts) (f : String → Nat),
      (∀ u ∈ ts, sluggerBase u ≠ "constructor" ∧ sluggerBase u ≠ "__proto__") →
      (∀ b, b ≠ "constructor" → b ≠ "__proto__" →
        (objGet m b).getD (.num 0) = .num (f b)) →
      runSluggerAux m ts = specRun f ts := by
  induction ts with
  | nil => intro m f _ _; rfl
  | cons t ts ih =>
    intro m f hclean hinv
    obtain ⟨hc1, hc2⟩ := hclean t (List.mem_cons_self _ _)
    have hread := hinv (sluggerBase t) hc1 hc2
    simp only [runSluggerAux, specRun, sluggerStep, mkSlugId, List.cons.injEq]
    constructor
    · rw [hread]
      simp [jsAdd1, jsValStr]
    · apply ih
      · intro u hu; exact hclean u (List.mem_cons_of_mem _ hu)
      · intro b hb1 hb2
        simp only [objSet, if_neg hc2]
        rw [objGet_setCount]
        by_cases hbt : b = sluggerBase t
        · subst hbt
          simp [hread, jsAdd1]
        · rw [if_neg hbt]
          simpa [hbt] using hinv b hb1 hb2

theorem specRun_getD (ts : List String) :
    ∀ (f : String → Nat) (i : Nat), i < ts.length →
      (specRun f ts).getD i "" =
        mkSlugId (sluggerBase (ts.getD i ""))
          (f (sluggerBase (ts.getD i "")) +
            (ts.take (i + 1)).countP
              (fun u => sluggerBase u == sluggerBase (ts.getD i ""))) := by
  induction ts with
  | nil => intro f i h; exact absurd h (by simp)
  | cons t ts ih =>
    intro f i h
    cases i with
    | zero =>
      simp [specRun, List.countP_cons]
    | succ i =>
      have hi : i < ts.length := by simpa using h
      simp only [specRun, List.getD_cons_succ, List.take_succ_cons, List.countP_cons]
      rw [ih _ i hi]
      by_cases hb : sluggerBase t = sluggerBase (ts.getD i "")
      · have hbeq : (sluggerBase t == sluggerBase (ts.getD i "")) = true :=
          beq_iff_eq.mpr hb
        rw [if_pos hb.symm, if_pos hbeq, hb]
        congr 1
        omega
      · have hbeq : (sluggerBase t == sluggerBase (ts.getD i "")) = false :=
          beq_eq_false_iff_ne.mpr hb
        rw [if_neg (fun e => hb e.symm), if_neg (by simpa using hb)]
        congr 1

theorem tocAux_map_id (lines : List (List Char)) :
    ∀ m, (tocAux m lines).map (·.id) =
      runSluggerAux m ((tocAux m lines).map (·.text)) := by
  induction lines with
  | nil => intro m; rfl
  | cons line rest ih =>
    intro m
    cases hh : headingOf ⟨line⟩ with
    | none => simp only [tocAux, hh]; exact ih m
    | some lt =>
      obtain ⟨level, text⟩ := lt
      simp only [tocAux, hh, List.map_cons, runSluggerAux, List.cons.injEq]
      exact ⟨trivial, ih _⟩

/-- C2 (amended): the table-of-contents extractor processes level-2 and
level-3 headings in top-to-bottom document order — its id sequence is exactly
a fresh slugger run over its heading-text sequence; for every sequence of
heading texts none of whose base slugs is an all-lowercase inherited
`Object.prototype` property name (`constructor` or `__proto__`), the i-th id
is the bare base slug when it is the first occurrence of that base slug, and
`base-n` when it is the n-th occurrence; in particular the heading texts
"Intro", "Intro", "Setup" receive the anchors `intro`, `intro-2`, `setup`,
in that order. -/
theorem toc_duplicate_slug_suffixes :
    (∀ md, (extractToc md).map (·.id) = runSlugger ((extractToc md).map (·.text)))
    ∧ (∀ ts : List String,
        (∀ u ∈ ts, sluggerBase u ≠ "constructor" ∧ sluggerBase u ≠ "__proto__") →
        ∀ i, i < ts.length →
        (runSlugger ts).getD i "" =
          (let b := sluggerBase (ts.getD i "")
           let n := (ts.take (i + 1)).countP (fun u => sluggerBase u == b)
           if n = 1 then b else b ++ "-" ++ toString n))
    ∧ (extractToc "## Intro\n## Intro\n## Setup").map (·.id) =
        ["intro", "intro-2", "setup"] := by
  refine ⟨fun md => tocAux_map_id (splitLines md.data) [], ?_, by decide⟩
  intro ts hclean i h
  have hbase : ∀ b, b ≠ "constructor" → b ≠ "__proto__" →
      (objGet ([] : Counts) b).getD (.num 0) = .num 0 := by
    intro b hb1 hb2
    simp [objGet, ownGet, protoLookup, hb1, hb2]
  show (runSluggerAux [] ts).getD i "" = _
  rw [runSluggerAux_eq_specRun_of_clean ts [] (fun _ => 0) hclean hbase,
    specRun_getD ts _ i h]
  simp [mkSlugId]

/-- C2 counterexample: the ordinary heading text "Constructor" slugifies to
the base slug `constructor`, and on the plain-object counter the read
`counts["constructor"] ?? 0` hits the inherited
`Object.prototype.constructor` function before any own count exists — it is
not nullish, so `?? 0` keeps it, `+ 1` concatenates, and the first
occurrence's id is `constructor-<function source>1` instead of the bare
slug, refuting the claimed bare/`-n` rule as stated for every document. -/
theorem toc_prototype_key_breaks_bare_slug :
    (extractToc "## Constructor\n## Constructor\n## Setup").map (·.id) =
      ["constructor-" ++ objectCtorSrc ++ "1",
       "constructor-" ++ objectCtorSrc ++ "11", "setup"]
    ∧ (extractToc "## Constructor").map (·.id) ≠ ["constructor"] := by
  refine ⟨by decide, by decide⟩

/-- Witness for C2 at a concrete input: "Intro", "Intro", "Setup" — all base
slugs clear of the inherited names — where the second "Intro" is the 2nd
occurrence of base `intro` and gets id `intro-2`. -/
theorem toc_duplicate_slug_suffixes_witness :
    1 < (["Intro", "Intro", "Setup"] : List String).length ∧
    (runSlugger ["Intro", "Intro", "Setup"]).getD 1 "" = "intro-2" := by
  refine ⟨by decide, ?_⟩
  have h := toc_duplicate_slug_suffixes.2.1 ["Intro", "Intro", "Setup"]
    (by decide) 1 (by decide)
  exact h.trans (by decide)

/-- C1 counterexample: for the body `fencedHeadingBody`, whose first `##` line
lies inside a fenced code block, the renderer assigns the anchor sequence
`intro`, `intro-2` to its rendered headings while the TOC extractor produces
`secret`, `intro`, `intro-2` — the sequences differ, so the claim that the two
sequences are identical for every body is false (here the TOC entry `secret`
points at no rendered anchor). -/
theorem toc_renderer_anchor_mismatch :
    rendererIds (renderedHeadingTexts fencedHeadingBody) = ["intro", "intro-2"]
    ∧ (extractToc fencedHeadingBody).map (·.id) = ["secret", "intro", "intro-2"]
    ∧ rendererIds (renderedHeadingTexts fencedHeadingBody) ≠
        (extractToc fencedHeadingBody).map (·.id) := by
  refine ⟨by decide, by decide, by decide⟩

/-- C1 (amended): the renderer and the extractor run the same deterministic
slugger (same base slugs, same duplicate-counting rule) over their heading
texts in the same top-to-bottom order, so whenever the rendered level-2/3
heading texts coincide with the texts the TOC extractor collects, the
renderer's anchor id sequence is identical to the TOC id sequence. -/
theorem toc_renderer_anchor_agreement (md : String) (hs : List String)
    (h : hs = (extractToc md).map (·.text)) :
    rendererIds hs = (extractToc md).map (·.id) := by
  rw [h, rendererIds]
  exact (tocAux_map_id (splitLines md.data) []).symm

/-- Witness for the amended C1 at a concrete body whose rendered heading texts
match the extractor's. -/
theorem toc_renderer_anchor_agreement_witness :
    (["Intro", "Intro", "Setup"] : List String) =
      (extractToc "## Intro\n## Intro\n### Setup").map (·.text)
    ∧ rendererIds ["Intro", "Intro", "Setup"] =
        (extractToc "## Intro\n## Intro\n### Setup").map (·.id) :=
  ⟨by decide, toc_renderer_anchor_agreement _ _ (by decide)⟩

example : stripMarkdown "# Title\nsome `code` here\n- item one\n[a link](url)\n```\nhidden\n```" =
    "Title some here item one a link" := by decide

/-- C3: for every post body the reading time is
`max(1, round(words / 200))` minutes over the whitespace-delimited words of
the stripped body (fenced and inline code, image tags and link syntax
removed, link text kept, heading and bullet markers dropped); a body with
exactly 400 prose words after stripping one fenced code block and one image
tag reads "2 min read", and a 50-word body reads "1 min read". -/
theorem reading_time_strip_and_round :
    (∀ md, readingTimeLabel md =
      toString (max 1 ((countWords (stripMarkdown md) + 100) / 200)) ++ " min read")
    ∧ countWords (stripMarkdown body400) = 400
    ∧ readingTimeLabel body400 = "2 min read"
    ∧ countWords (stripMarkdown body50) = 50
    ∧ readingTimeLabel body50 = "1 min read" := by
  exact ⟨fun md => rfl, by decide, by decide, by decide, by decide⟩

theorem normalizeRow_fields (r : RawRow) :
    ((∀ xs, r.image_paths ≠ ImgField.arr xs) → (normalizeRow r).image_paths = [])
    ∧ (r.body_md = none → (normalizeRow r).body_md = r.body) := by
  constructor
  · intro h
    cases himg : r.image_paths with
    | arr xs => exact absurd himg (h xs)
    | absent => simp [normalizeRow, himg]
    | null => simp [normalizeRow, himg]
    | notArray => simp [normalizeRow, himg]
  · intro h
    simp [normalizeRow, h]

/-- C4: every post returned by `getPost` (getById) or `loadPosts`
(listPublished) comes from a backend row through `normalizeRow`, so its
`image_paths` is a genuine list — the empty list whenever the row's field is
absent, null, or not an array — and its `body_md` is filled from the legacy
`body` column when the row has no `body_md`. -/
theorem repo_rows_normalized :
    (∀ db id p, getPost db id = some p →
      ∃ r, r ∈ db ∧ p = normalizeRow r
        ∧ ((∀ xs, r.image_paths ≠ ImgField.arr xs) → p.image_paths = [])
        ∧ (r.body_md = none → p.body_md = r.body))
    ∧ (∀ db p, p ∈ loadPosts db →
      ∃ r, r ∈ db ∧ p = normalizeRow r
        ∧ ((∀ xs, r.image_paths ≠ ImgField.arr xs) → p.image_paths = [])
        ∧ (r.body_md = none → p.body_md = r.body)) := by
  constructor
  · intro db id p h
    obtain ⟨r, hfind, hnorm⟩ := Option.map_eq_some'.mp h
    refine ⟨r, List.mem_of_find?_eq_some hfind, hnorm.symm, ?_, ?_⟩
    · intro hno; rw [← hnorm]; exact (normalizeRow_fields r).1 hno
    · intro hb; rw [← hnorm]; exact (normalizeRow_fields r).2 hb
  · intro db p h
    obtain ⟨r, hr, hnorm⟩ := List.mem_map.mp h
    have hr2 : r ∈ db :=
      (List.mem_filter.mp ((List.mem_insertionSort pubDescRel).mp hr)).1
    refine ⟨r, hr2, hnorm.symm, ?_, ?_⟩
    · intro hno; rw [← hnorm]; exact (normalizeRow_fields r).1 hno
    · intro hb; rw [← hnorm]; exact (normalizeRow_fields r).2 hb

/-- Witness for C4 on a concrete legacy row (`image_paths` NULL, Markdown in
the legacy `body` column): `getPost` returns it normalized, with
`image_paths = []` and `body_md` taken from `body`. -/
theorem repo_rows_normalized_witness :
    getPost [rowLegacy] "p1" = some (normalizeRow rowLegacy)
    ∧ (normalizeRow rowLegacy).image_paths = []
    ∧ (normalizeRow rowLegacy).body_md = some "legacy body"
    ∧ ∃ r, r ∈ [rowLegacy] ∧ normalizeRow rowLegacy = normalizeRow r
        ∧ ((∀ xs, r.image_paths ≠ ImgField.arr xs) →
            (normalizeRow rowLegacy).image_paths = [])
        ∧ (r.body_md = none → (normalizeRow rowLegacy).body_md = r.body) := by
  refine ⟨by decide, by decide, by decide, ?_⟩
  exact repo_rows_normalized.1 [rowLegacy] "p1" (normalizeRow rowLegacy) (by decide)

/-- C5: an authenticated `create` stores status draft with a null
`published_at` when `status` is omitted, and stamps `published_at` with the
call time when the input says published (the input shape cannot supply a
`published_at` of its own); the returned post agrees with the inserted
row. -/
theorem create_defaults_draft_and_stamps_publish_time
    (uid : String) (db : List RawRow) (input : CreateInput) (now : Nat)
    (meta : InsertMeta) (db2 : List RawRow) (p : PostRow)
    (h : addPost (.ok (some uid)) db input now meta = .ok (db2, p)) :
    (input.status = none → p.status = "draft" ∧ p.published_at = none)
    ∧ (input.status = some .published → p.published_at = some now)
    ∧ ∃ r, db2 = db ++ [r] ∧ r.status = p.status
        ∧ r.published_at = p.published_at := by
  simp only [addPost, Except.ok.injEq, Prod.mk.injEq] at h
  obtain ⟨hdb, hp⟩ := h
  subst hdb
  subst hp
  refine ⟨?_, ?_, ⟨_, rfl, rfl, rfl⟩⟩
  · intro hs
    constructor
    · simp [normalizeRow, hs, PostStatus.toStr]
    · simp [normalizeRow, hs]
  · intro hs
    simp [normalizeRow, hs]

/-- Witness for C5 at concrete create calls: with `status` omitted the stored
post is a draft with no `published_at`; with `status = published` and no
supplied `published_at`, `published_at` is the call time 9. -/
theorem create_defaults_witness :
    (∃ db2 p, addPost (.ok (some "u1")) [] draftInput 9 exMeta = .ok (db2, p)
      ∧ p.status = "draft" ∧ p.published_at = none)
    ∧ (∃ db2 p, addPost (.ok (some "u1")) [] publishInput 9 exMeta = .ok (db2, p)
      ∧ p.published_at = some 9) := by
  constructor
  · refine ⟨_, _, rfl, ?_⟩
    have h := create_defaults_draft_and_stamps_publish_time "u1" [] draftInput 9
      exMeta _ _ rfl
    exact h.1 rfl
  · refine ⟨_, _, rfl, ?_⟩
    have h := create_defaults_draft_and_stamps_publish_time "u1" [] publishInput 9
      exMeta _ _ rfl
    exact h.2.1 rfl

/-- C7: a `create` call with no authenticated user fails with the explicit
unauthenticated error — the `"Not logged in"` throw happens before the
insert is built, no default author is substituted — and the stored rows are
unchanged: no row is produced. -/
theorem create_unauthenticated_fails_before_insert
    (db : List RawRow) (input : CreateInput) (now : Nat) (meta : InsertMeta) :
    addPost (.ok none) db input now meta = .error .unauthenticated
    ∧ dbAfterCreate (.ok none) db input now meta = db :=
  ⟨rfl, rfl⟩

/-- C8 (amended): `listPublished` returns exactly the normalized rows whose
status is published, ordered by `published_at` descending with rows lacking a
`published_at` placed first (Postgres `ORDER BY ... DESC` default); there is
no fallback to `created_at` in the ordering. -/
theorem list_published_filter_and_order :
    (∀ db p, p ∈ loadPosts db ↔
      ∃ r, r ∈ db ∧ r.status = "published" ∧ p = normalizeRow r)
    ∧ ∀ db, (loadPosts db).Pairwise
        (fun a b => nullsFirstGe a.published_at b.published_at = true) := by
  constructor
  · intro db p
    constructor
    · intro h
      obtain ⟨r, hr, hnorm⟩ := List.mem_map.mp h
      obtain ⟨hmem, hstat⟩ :=
        List.mem_filter.mp ((List.mem_insertionSort pubDescRel).mp hr)
      exact ⟨r, hmem, beq_iff_eq.mp hstat, hnorm.symm⟩
    · rintro ⟨r, hmem, hstat, rfl⟩
      exact List.mem_map.mpr ⟨r,
        (List.mem_insertionSort pubDescRel).mpr
          (List.mem_filter.mpr ⟨hmem, beq_iff_eq.mpr hstat⟩), rfl⟩
  · intro db
    have hs := List.sorted_insertionSort pubDescRel
      (db.filter (fun r => r.status == "published"))
    exact List.pairwise_map.mpr hs

/-- C8 counterexample: two published rows, one dated `published_at = 5` with
`created_at = 10`, the other with no `published_at` and `created_at = 1`.
`loadPosts` returns the undated row first (NULLs first under descending
order), so the result is ascending — not descending — in the claimed
fallback key `published_at ?? created_at`: the claimed `created_at` fallback
does not exist in the query. -/
theorem list_published_created_at_fallback_fails :
    ((loadPosts [rowDated, rowNullDate]).map (·.id) = ["a", "b"])
    ∧ ((loadPosts [rowDated, rowNullDate]).map
        (fun p => p.published_at.getD p.created_at) = [1, 5])
    ∧ ¬ ((loadPosts [rowDated, rowNullDate]).Pairwise
        (fun a b => b.published_at.getD b.created_at ≤
          a.published_at.getD a.created_at)) := by
  refine ⟨by decide, by decide, by decide⟩

/-- C6: fields omitted from the partial update keep their stored values, and
in particular a `save` that sets status published, types no datetime, and
runs against a row that already has a `published_at` omits `published_at`
from the update object, leaving the stored timestamp unchanged. -/
theorem update_preserves_existing_published_at
    (form : EditForm) (r : Repo.RawRow) (now t : Nat)
    (hpub : r.published_at = some t)
    (hdesired : form.desiredPublishedAt = none) :
    (buildUpdate form r.published_at now).published_at = none
    ∧ ((save form r now).2).published_at = some t
    ∧ (∀ r2 u, (u.published_at = none →
          (applyUpdate r2 u).published_at = r2.published_at)
        ∧ (u.title = none → (applyUpdate r2 u).title = r2.title)
        ∧ (u.excerpt = none → (applyUpdate r2 u).excerpt = r2.excerpt)
        ∧ (u.body_md = none → (applyUpdate r2 u).body_md = r2.body_md)
        ∧ (u.status = none → (applyUpdate r2 u).status = r2.status)
        ∧ (u.cover_path = none → (applyUpdate r2 u).cover_path = r2.cover_path)
        ∧ (u.image_paths = none →
            (applyUpdate r2 u).image_paths = r2.image_paths)) := by
  refine ⟨?_, ?_, ?_⟩
  · simp [buildUpdate, hdesired, hpub]
  · simp [save, applyUpdate, buildUpdate, hdesired, hpub]
  · intro r2 u
    refine ⟨?_, ?_, ?_, ?_, ?_, ?_, ?_⟩ <;> intro hu <;> simp [applyUpdate, hu]

/-- Witness for C6: saving `publishForm` (status published, empty datetime)
over a row already published at 42 keeps `published_at = 42`. -/
theorem update_preserves_existing_published_at_witness :
    rowPublished42.published_at = some 42
    ∧ publishForm.desiredPublishedAt = none
    ∧ ((save publishForm rowPublished42 99).2).published_at = some 42 := by
  refine ⟨rfl, rfl, ?_⟩
  exact (update_preserves_existing_published_at publishForm rowPublished42
    99 42 rfl rfl).2.1

/-- C9 counterexample: deleting the post that owns stored image
`posts/p/images/i1` removes the row but leaves the stored image in place —
`deletePost` performs no image cleanup at all, so the claim that `delete`
best-effort deletes the post's stored images is false. -/
theorem delete_does_not_remove_stored_images :
    (normalizeRow rowWithImage).image_paths = ["posts/p/images/i1"]
    ∧ (deletePost [rowWithImage] ["posts/p/images/i1"] "p").1 = []
    ∧ (deletePost [rowWithImage] ["posts/p/images/i1"] "p").2 =
        ["posts/p/images/i1"] := by
  refine ⟨by decide, by decide, rfl⟩

/-- C9 (amended): `delete(id)` removes exactly the rows with this id and
performs no storage operation — the stored-object list is returned unchanged
(image cleanup lives only in the cover-replace and image-remove flows). -/
theorem delete_removes_row_and_touches_no_storage :
    ∀ (db : List Repo.RawRow) (storage : List String) (id : String),
      (deletePost db storage id).2 = storage
      ∧ (∀ r, r ∈ (deletePost db storage id).1 ↔ r ∈ db ∧ r.id ≠ id) := by
  intro db st id
  refine ⟨rfl, fun r => ?_⟩
  simp [deletePost, List.mem_filter]

theorem mem_replaceRuns {p : Char → Bool} {r : Char} :
    ∀ (l : List Char) (b : Bool) (c : Char),
      c ∈ PostPage.replaceRuns p r l b → c = r ∨ (p c = false ∧ c ∈ l) := by
  intro l
  induction l with
  | nil => intro b c h; simp [PostPage.replaceRuns] at h
  | cons d rest ih =>
    intro b c h
    simp only [PostPage.replaceRuns] at h
    by_cases hp : p d = true
    · rw [if_pos hp] at h
      by_cases hb : b = true
      · rw [if_pos hb] at h
        rcases ih true c h with h1 | ⟨h2, h3⟩
        · exact Or.inl h1
        · exact Or.inr ⟨h2, List.mem_cons_of_mem _ h3⟩
      · rw [if_neg hb] at h
        rcases List.mem_cons.mp h with h1 | h1
        · exact Or.inl h1
        · rcases ih true c h1 with h2 | ⟨h2, h3⟩
          · exact Or.inl h2
          · exact Or.inr ⟨h2, List.mem_cons_of_mem _ h3⟩
    · rw [if_neg hp] at h
      rcases List.mem_cons.mp h with h1 | h1
      · subst h1
        exact Or.inr ⟨by simpa using hp, List.mem_cons_self _ _⟩
      · rcases ih false c h1 with h2 | ⟨h2, h3⟩
        · exact Or.inl h2
        · exact Or.inr ⟨h2, List.mem_cons_of_mem _ h3⟩

theorem stripEdgeHyphens_subset (l : List Char) :
    WritePage.stripEdgeHyphens l ⊆ l := by
  simp only [WritePage.stripEdgeHyphens]
  split
  · split
    · exact fun c hc =>
        (List.tail_sublist l).subset ((List.dropLast_sublist _).subset hc)
    · exact (List.tail_sublist l).subset
  · split
    · exact fun c hc => (List.dropLast_sublist _).subset hc
    · exact fun c hc => hc

theorem writeSlugify_length (s : String) : (WritePage.slugify s).length ≤ 80 := by
  simp only [WritePage.slugify]
  exact List.length_take_le _ _

theorem writeSlugify_chars (s : String) :
    ∀ c ∈ (WritePage.slugify s).data,
      c.isLower = true ∨ c.isDigit = true ∨ c = '-' := by
  intro c hc
  simp only [WritePage.slugify] at hc
  have h2 := stripEdgeHyphens_subset _ (List.take_subset _ _ hc)
  rcases mem_replaceRuns _ _ _ h2 with h3 | ⟨h3, _⟩
  · exact Or.inr (Or.inr h3)
  · have h4 : c.isLower = true ∨ c.isDigit = true := by
      cases hcl : c.isLower with
      | true => exact Or.inl rfl
      | false =>
        cases hcd : c.isDigit with
        | true => exact Or.inr rfl
        | false => rw [hcl, hcd] at h3; simp at h3
    rcases h4 with h5 | h5
    · exact Or.inl h5
    · exact Or.inr (Or.inl h5)

theorem decimalDigit_isDigit (d : Nat) :
    (WritePage.decimalDigit d).isDigit = true := by
  unfold WritePage.decimalDigit
  set r := d % 10 with hr
  have h : r < 10 := by rw [hr]; exact Nat.mod_lt _ (by omega)
  interval_cases r <;> decide

theorem decimalAux_digits :
    ∀ (fuel n : Nat) (c : Char),
      c ∈ WritePage.decimalAux fuel n → c.isDigit = true := by
  intro fuel
  induction fuel with
  | zero => intro n c h; simp [WritePage.decimalAux] at h
  | succ fuel ih =>
    intro n c h
    simp only [WritePage.decimalAux] at h
    by_cases hn : n < 10
    · rw [if_pos hn] at h
      simp at h
      subst h
      exact decimalDigit_isDigit n
    · rw [if_neg hn] at h
      rcases List.mem_append.mp h with h1 | h1
      · exact ih _ _ h1
      · simp at h1
        subst h1
        exact decimalDigit_isDigit _

theorem decimalAux_length :
    ∀ (fuel k n : Nat), n < 10 ^ k → 0 < k →
      (WritePage.decimalAux fuel n).length ≤ k := by
  intro fuel
  induction fuel with
  | zero => intro k n h hk; simp [WritePage.decimalAux]
  | succ fuel ih =>
    intro k n h hk
    simp only [WritePage.decimalAux]
    by_cases hn : n < 10
    · rw [if_pos hn]; simpa using hk
    · rw [if_neg hn]
      rw [List.length_append]
      cases k with
      | zero => omega
      | succ m =>
        cases m with
        | zero => rw [pow_one] at h; omega
        | succ m2 =>
          have hdiv : n / 10 < 10 ^ (m2 + 1) := by
            rw [Nat.div_lt_iff_lt_mul (by omega : (0:Nat) < 10)]
            calc n < 10 ^ (m2 + 2) := h
            _ = 10 ^ (m2 + 1) * 10 := by rw [pow_succ]
          have hlen := ih (m2 + 1) (n / 10) hdiv (by omega)
          simp only [List.length_cons, List.length_nil]
          omega

/-- C10: for every title (and any realistic `Date.now()` timestamp, below
`10^17` ms, i.e. beyond year 5000), the slug the Write flow sends to `create`
is at most 80 characters, consists only of lowercase letters, digits, and
hyphens, and is never empty; when slugification of the trimmed title is
empty, the flow substitutes the `post-<timestamp>` fallback. -/
theorem write_slug_bounded_and_wellformed
    (title : String) (nowMs : Nat) (hnow : nowMs < 10 ^ 17) :
    (onSaveSlug title nowMs).length ≤ 80
    ∧ onSaveSlug title nowMs ≠ ""
    ∧ (∀ c ∈ (onSaveSlug title nowMs).data,
        c.isLower = true ∨ c.isDigit = true ∨ c = '-')
    ∧ (WritePage.slugify ⟨jsTrim title.data⟩ = "" →
        onSaveSlug title nowMs = "post-" ++ WritePage.decimalString nowMs) := by
  by_cases hs : WritePage.slugify ⟨jsTrim title.data⟩ = ""
  · have heq : onSaveSlug title nowMs =
        "post-" ++ WritePage.decimalString nowMs := by
      simp [WritePage.onSaveSlug, hs]
    have hdlen : (WritePage.decimalString nowMs).length ≤ 17 :=
      decimalAux_length (nowMs + 1) 17 nowMs hnow (by omega)
    have hpostlen : ("post-" : String).length = 5 := rfl
    refine ⟨?_, ?_, ?_, fun _ => heq⟩
    · rw [heq, String.length_append]
      omega
    · rw [heq]
      intro hbad
      have hlen := congrArg String.length hbad
      rw [String.length_append] at hlen
      have hz : ("" : String).length = 0 := rfl
      omega
    · intro c hc
      rw [heq, String.data_append] at hc
      rcases List.mem_append.mp hc with h1 | h1
      · have hpost : ∀ x ∈ ("post-" : String).data,
            x.isLower = true ∨ x.isDigit = true ∨ x = '-' := by decide
        exact hpost c h1
      · exact Or.inr (Or.inl (decimalAux_digits _ _ _ h1))
  · have heq : onSaveSlug title nowMs = WritePage.slugify ⟨jsTrim title.data⟩ := by
      simp [WritePage.onSaveSlug, hs]
    refine ⟨?_, ?_, ?_, fun hbad => absurd hbad hs⟩
    · rw [heq]; exact writeSlugify_length _
    · rw [heq]; exact hs
    · intro c hc
      rw [heq] at hc
      exact writeSlugify_chars _ c hc

/-- Witness for C10 at a concrete title and timestamp. -/
theorem write_slug_bounded_and_wellformed_witness :
    ((1700000000000 : Nat) < 10 ^ 17)
    ∧ (onSaveSlug "Hello World!" 1700000000000).length ≤ 80
    ∧ onSaveSlug "Hello World!" 1700000000000 ≠ ""
    ∧ onSaveSlug "Hello World!" 1700000000000 = "hello-world" := by
  refine ⟨by norm_num, ?_, ?_, by decide⟩
  · exact (write_slug_bounded_and_wellformed "Hello World!" 1700000000000
      (by norm_num)).1
  · exact (write_slug_bounded_and_wellformed "Hello World!" 1700000000000
      (by norm_num)).2.1
